import Mathlib

/-!
Shallow embedding of the life3d core (src/universe.rs, src/engine.rs,
src/support.rs) and proofs of the specification claims.

Conventions of the embedding:
* Rust `usize`/`u32` values are modelled as `Nat`; `i32` values as `Int`,
  with two's-complement wraparound (`i32wrap`) applied exactly where the
  Rust expression performs 32-bit signed arithmetic or an `as i32` cast.
* Indexing `cells[index]` panics in Rust when `index` is out of bounds;
  fallible operations built on it (`Universe::toggle`) therefore return
  `Option` here, while read paths that the program only exercises in
  bounds (`step`, `neighbours`) read through `Universe.getCell`, a
  defaulted lookup, and every theorem about them carries the
  well-formedness hypotheses under which the default is never consulted.
* `rand::thread_rng` in `Universe::rand` is modelled as an injected
  stream of booleans `bits : Nat → Bool`, one per loop iteration.
-/

namespace Life3d

/-- `CellState` from src/universe.rs. -/
inductive CellState
  | Dead
  | Alive
deriving DecidableEq, Repr

/-- `CellState as u8` (Rust discriminant cast used by `neighbours`). -/
def CellState.toNat : CellState → Nat
  | .Dead => 0
  | .Alive => 1

/-- `Cell` from src/universe.rs. -/
structure Cell where
  state : CellState
  changed : Bool
deriving DecidableEq, Repr

/-- `Universe` from src/universe.rs: a flat row-major vector of cells. -/
structure Universe where
  width : Nat
  height : Nat
  cells : List Cell
deriving DecidableEq, Repr

namespace Universe

/-- `Universe::index`: row-major linear index `cy * width + cx`. -/
def index (u : Universe) (cx cy : Nat) : Nat :=
  cy * u.width + cx

/-- `Universe::size`. -/
def size (u : Universe) : Nat :=
  u.width * u.height

/-- Defaulted cell read: stands for the Rust `self.cells[i]` access, which
the program only performs in bounds (theorems carry the bounds under which
the default `⟨Dead, false⟩` is never consulted). -/
def getCell (u : Universe) (i : Nat) : Cell :=
  u.cells.getD i ⟨.Dead, false⟩

/-- Well-formedness of a grid: positive dimensions and the invariant
`cells.len() == width * height` that every `Universe` built by the code
maintains. -/
def Wellformed (u : Universe) : Prop :=
  0 < u.width ∧ 0 < u.height ∧ u.cells.length = u.width * u.height

instance (u : Universe) : Decidable u.Wellformed := by
  unfold Wellformed; infer_instance

/-- `Universe::neighbours`: count of alive cells over the offset lists
`[width-1, 0, 1]` and `[height-1, 0, 1]`, skipping the pair whose value is
`(0, 0)`, each coordinate taken modulo the dimension.  The Rust `u8`
counter never exceeds 8, so plain `Nat` addition is exact. -/
def neighbours (u : Universe) (x y : Nat) : Nat :=
  [u.width - 1, 0, 1].foldl (fun count nx =>
    [u.height - 1, 0, 1].foldl (fun count ny =>
      if nx = 0 ∧ ny = 0 then count
      else count + (u.getCell (u.index ((x + nx) % u.width) ((y + ny) % u.height))).state.toNat)
      count) 0

/-- The rule `match (actual.state, neighbours)` inside `Universe::step`. -/
def lifeRule (s : CellState) (n : Nat) : CellState :=
  if s = .Alive ∧ n < 2 then .Dead
  else if s = .Alive ∧ (n = 2 ∨ n = 3) then .Alive
  else if s = .Alive ∧ n > 3 then .Dead
  else if s = .Dead ∧ n = 3 then .Alive
  else s

/-- The cell written to `next[idx]` by `Universe::step` for coordinates
`(x, y)`: the rule applied to the pre-step state, with
`changed = (actual.state != cellstate)`. -/
def nextCell (u : Universe) (x y : Nat) : Cell :=
  let actual := u.getCell (u.index x y)
  let st := lifeRule actual.state (u.neighbours x y)
  ⟨st, decide (actual.state ≠ st)⟩

/-- `Universe::step`: scan `y` over `0..height` and `x` over `0..width`,
writing `next[idx]` computed from the pre-step cells (`next` starts as a
clone of `cells`; every read goes through `u`, never through the buffer
being written). -/
def step (u : Universe) : Universe :=
  let next :=
    (List.range u.height).foldl
      (fun acc y =>
        (List.range u.width).foldl
          (fun acc x => acc.set (u.index x y) (u.nextCell x y)) acc)
      u.cells
  { u with cells := next }

/-- The state flip in `Universe::toggle`. -/
def flipState : CellState → CellState
  | .Dead => .Alive
  | .Alive => .Dead

/-- `Universe::toggle`: writes through `cells[index(x, y)]` with no modulo;
the Rust indexing panics when the linear index is out of bounds, so the
model returns `none` there. -/
def toggle (u : Universe) (x y : Nat) : Option Universe :=
  let i := u.index x y
  match u.cells[i]? with
  | some c => some { u with cells := u.cells.set i ⟨flipState c.state, true⟩ }
  | none => none

/-- `Universe::rand`: `(0..width*height).zip(cells)` truncates to the
shorter side; each iteration draws one boolean from the injected stream. -/
def rand (u : Universe) (bits : Nat → Bool) : Universe :=
  let next :=
    ((List.range (u.width * u.height)).zip u.cells).map (fun p =>
      let st : CellState := if bits p.1 then .Alive else .Dead
      ⟨st, decide (p.2.state ≠ st)⟩)
  { u with cells := next }

/-- `Universe::clear`: every zipped cell becomes dead,
`changed = (old state == Alive)`. -/
def clear (u : Universe) : Universe :=
  let next :=
    ((List.range (u.width * u.height)).zip u.cells).map (fun p =>
      ⟨.Dead, decide (p.2.state = .Alive)⟩)
  { u with cells := next }

/-- `Universe::new`: all cells dead with `changed = true`; no validation of
the dimensions whatsoever. -/
def new (width height : Nat) : Universe :=
  { width := width
    height := height
    cells := List.replicate (width * height) ⟨.Dead, true⟩ }

/-- The neighbour count exactly as the specification words it: the number
of alive cells among the 8 toroidal neighbours reached by the offset
pairs of `[width-1, 0, 1] x [height-1, 0, 1]`, the `(0, 0)` offset
excluded, each coordinate taken modulo the dimension.  Stated against
`Universe.neighbours`, the count the code computes. -/
def specNeighbourCount (u : Universe) (x y : Nat) : Nat :=
  ((([u.width - 1, 0, 1].flatMap (fun nx => [u.height - 1, 0, 1].map (fun ny => (nx, ny)))).filter
      (fun p => ¬ (p.1 = 0 ∧ p.2 = 0))).filter
    (fun p =>
      (u.getCell (u.index ((x + p.1) % u.width) ((y + p.2) % u.height))).state = .Alive)).length

/-- `Universe::step`'s write at linear index `i`, as a function of the
index alone: the scan writes `nextCell x y` at `index x y`, and for
`x < width` the coordinates are recovered as `i % width`, `i / width`. -/
def nextCellAt (u : Universe) (i : Nat) : Cell :=
  u.nextCell (i % u.width) (i / u.width)

/-- The linear indices `y * width + x` in the order the `step` scan
visits them: `y` over `0..height` outside, `x` over `0..width` inside. -/
def scanIndices (width height : Nat) : List Nat :=
  ((List.range height).map (fun y => (List.range width).map (fun x => y * width + x))).flatten

end Universe

/-- Two's-complement wraparound of an integer into the `i32` range
`[-2^31, 2^31)`; models Rust release-mode overflow of 32-bit signed
arithmetic and `as i32` casts. -/
def i32wrap (n : Int) : Int :=
  (n + 2 ^ 31) % 2 ^ 32 - 2 ^ 31

/-- `SHORTEST_LIFECYCLE` from src/engine.rs. -/
def SHORTEST_LIFECYCLE : Nat := 2

/-- `LONGEST_LIFECYCLE` from src/engine.rs. -/
def LONGEST_LIFECYCLE : Nat := 60

/-- `Mouse` from src/engine.rs (`u16` coordinates as `Nat`). -/
structure Mouse where
  x : Nat
  y : Nat
deriving DecidableEq, Repr

/-- `EngineState` from src/engine.rs. -/
inductive EngineState
  | Running
  | Stopped
deriving DecidableEq, Repr

/-- `EngineDrawState` from src/engine.rs. -/
inductive EngineDrawState
  | Drawing
  | None
deriving DecidableEq, Repr

/-- `EngineEvent` from src/engine.rs. -/
inductive EngineEvent
  | Randomize
  | Clear
  | None
deriving DecidableEq, Repr

/-- `Draw` from src/engine.rs (`i32` cell memory as `Int`). -/
structure Draw where
  cx : Int
  cy : Int
  state : EngineDrawState
deriving DecidableEq, Repr

/-- `Engine` from src/engine.rs.  The `t : f32` field (a cosmetic render
rotation accumulator) is the one field left out: it is floating-point and
feeds only the shaders. -/
structure Engine where
  state : EngineState
  draw : Draw
  event : EngineEvent
  mouse : Mouse
  frame : Nat
  lifecycle : Nat
deriving DecidableEq, Repr

namespace Engine

/-- `Engine::new`: running, no draw in progress (`cx = cy = -1`), no
pending event, frame 0, lifecycle clamped into
`[SHORTEST_LIFECYCLE, LONGEST_LIFECYCLE]`. -/
def new (lifecycle : Nat) : Engine :=
  { state := .Running
    draw := { cx := -1, cy := -1, state := .None }
    event := .None
    mouse := { x := 0, y := 0 }
    frame := 0
    lifecycle := min (max lifecycle SHORTEST_LIFECYCLE) LONGEST_LIFECYCLE }

/-- `Engine::is_drawing`. -/
def is_drawing (e : Engine) : Bool :=
  e.draw.state = .Drawing

/-- `Engine::just_drawn`. -/
def just_drawn (e : Engine) (cx cy : Int) : Bool :=
  e.draw.cx = cx ∧ e.draw.cy = cy

/-- `Engine::draw` (the method; named `drawAt` because the Lean structure
already has a field `draw`). -/
def drawAt (e : Engine) (cx cy : Int) : Engine :=
  { e with draw := { e.draw with cx := cx, cy := cy } }

/-- `Engine::startstop`. -/
def startstop (e : Engine) : Engine :=
  { e with state := match e.state with
      | .Running => .Stopped
      | .Stopped => .Running }

/-- `Engine::is_running`. -/
def is_running (e : Engine) : Bool :=
  e.state = .Running

/-- `Engine::is_last_frame` (`frame == lifecycle - 1`). -/
def is_last_frame (e : Engine) : Bool :=
  e.frame = e.lifecycle - 1

/-- `Engine::is_first_frame` (`frame == 0`). -/
def is_first_frame (e : Engine) : Bool :=
  e.frame = 0

/-- `Engine::poll`: return the pending event and clear the slot. -/
def poll (e : Engine) : EngineEvent × Engine :=
  (e.event, { e with event := .None })

/-- `Engine::trigger`: overwrite the pending event slot. -/
def trigger (e : Engine) (event : EngineEvent) : Engine :=
  { e with event := event }

/-- `Engine::next_frame`: `frame = (frame + 1) % lifecycle`. -/
def next_frame (e : Engine) : Engine :=
  { e with frame := (e.frame + 1) % e.lifecycle }

/-- `Engine::reset`: `frame = 0`. -/
def reset (e : Engine) : Engine :=
  { e with frame := 0 }

/-- `Engine::change_lifecycle`: `lifecycle as i32 + delta` (32-bit signed,
wrapping), floored at `SHORTEST_LIFECYCLE`, cast to `u32` (non-negative
here, so `toNat` is exact), capped at `LONGEST_LIFECYCLE`, and the frame
clamped to `lifecycle - 1`. -/
def change_lifecycle (e : Engine) (delta : Int) : Engine :=
  let lifecycle₀ := (max (i32wrap ((e.lifecycle : Int) + delta)) (SHORTEST_LIFECYCLE : Int)).toNat
  let lifecycle := min lifecycle₀ LONGEST_LIFECYCLE
  { e with lifecycle := lifecycle, frame := min e.frame (lifecycle - 1) }

/-- The frame-advance decision of `Engine::step` (src/engine.rs lines
201-205): advance when running, or when the stopped engine has not yet
reached the last frame of the generation. -/
def advance_frame (e : Engine) : Engine :=
  if e.is_running || !e.is_last_frame then e.next_frame else e

/-- The drawing phase of `Engine::step` (src/engine.rs lines 166-176).
The result of `support::mouse_projection` — an `f32` ray cast — enters as
the oracle parameter `proj`; when it hits a cell not equal to the
just-drawn one, the universe cell is toggled (Rust indexing may panic,
hence the `Option`) and the cell is remembered through the `as i32`
casts. -/
def drawPhase (e : Engine) (u : Universe) (proj : Option (Nat × Nat)) :
    Option (Engine × Universe) :=
  if e.is_drawing then
    match proj with
    | some (cx, cy) =>
      if e.just_drawn (i32wrap cx) (i32wrap cy) then some (e, u)
      else (u.toggle cx cy).map (fun u' => (e.drawAt (i32wrap cx) (i32wrap cy), u'))
    | none => some (e, u)
  else some (e, u)

/-- The simulation content of `Engine::step` (src/engine.rs lines
156-211): drawing phase, then poll-and-apply of the pending event with a
frame reset, then the frame-advance decision, then the universe
generation step exactly when the resulting frame is the first one.  The
pure-rendering calls of the Rust function (the `t` rotation update,
`camera.step`, `clear_color_and_depth`, `update_dynamic_attributes`) have
no simulation effect and are omitted; the returned boolean records
whether `universe.step()` ran. -/
def step (e : Engine) (u : Universe) (proj : Option (Nat × Nat))
    (bits : Nat → Bool) : Option (Engine × Universe × Bool) :=
  (e.drawPhase u proj).map (fun p =>
    let e₁ := p.1
    let u₁ := p.2
    let polled := e₁.poll
    let e₂ :=
      match polled.1 with
      | .Randomize => polled.2.reset
      | .Clear => polled.2.reset
      | .None => polled.2
    let u₂ :=
      match polled.1 with
      | .Randomize => u₁.rand bits
      | .Clear => u₁.clear
      | .None => u₁
    let e₃ := e₂.advance_frame
    if e₃.is_first_frame then (e₃, u₂.step, true) else (e₃, u₂, false))

end Engine

/-- The Engine operations named by the spec's invariant claim, each
mapped to the corresponding `Engine` method. -/
inductive EngineOp
  | nextFrame
  | reset
  | changeLifecycle (delta : Int)
  | startstop
  | trigger (event : EngineEvent)
  | poll

/-- Apply one `EngineOp`. -/
def Engine.applyOp (e : Engine) : EngineOp → Engine
  | .nextFrame => e.next_frame
  | .reset => e.reset
  | .changeLifecycle delta => e.change_lifecycle delta
  | .startstop => e.startstop
  | .trigger event => e.trigger event
  | .poll => (e.poll).2

/-- Apply a sequence of `EngineOp`s in order. -/
def Engine.applyOps (e : Engine) (ops : List EngineOp) : Engine :=
  ops.foldl Engine.applyOp e

/-- The engine pacing invariant: lifecycle within `[2, 60]` and the frame
strictly below it. -/
def Engine.Inv (e : Engine) : Prop :=
  SHORTEST_LIFECYCLE ≤ e.lifecycle ∧ e.lifecycle ≤ LONGEST_LIFECYCLE ∧ e.frame < e.lifecycle

instance (e : Engine) : Decidable e.Inv := by
  unfold Engine.Inv; infer_instance

/-- The cell-selection tail of `support::mouse_projection` (src/support.rs
lines 71-79).  The upstream ray arithmetic — inverse perspective, inverse
view, normalisation — is `f32` linear algebra whose outcome enters here as
the computed world-plane grid coordinates `x`, `y` (the Rust locals `x`
and `y` of lines 72-73), modelled as exact rationals.  Rust `as usize` on
a non-negative float truncates toward zero, i.e. floors. -/
def mouse_projection_select (x y : ℚ) (uWidth uHeight : Nat) : Option (Nat × Nat) :=
  if 0 ≤ x ∧ 0 ≤ y ∧ x < (uWidth : ℚ) ∧ y < (uHeight : ℚ) then
    some (⌊x⌋.toNat, ⌊y⌋.toNat)
  else
    none

/-- `Engine::new` establishes the pacing invariant. -/
theorem Engine.inv_new (n : Nat) : (Engine.new n).Inv := by
  refine ⟨?_, ?_, ?_⟩
  · show SHORTEST_LIFECYCLE ≤ min (max n SHORTEST_LIFECYCLE) LONGEST_LIFECYCLE
    simp only [SHORTEST_LIFECYCLE, LONGEST_LIFECYCLE]
    omega
  · show min (max n SHORTEST_LIFECYCLE) LONGEST_LIFECYCLE ≤ LONGEST_LIFECYCLE
    exact Nat.min_le_right _ _
  · show 0 < min (max n SHORTEST_LIFECYCLE) LONGEST_LIFECYCLE
    simp only [SHORTEST_LIFECYCLE, LONGEST_LIFECYCLE]
    omega

/-- `i32wrap` lands in the `i32` range. -/
theorem i32wrap_mem (n : Int) : -(2 ^ 31) ≤ i32wrap n ∧ i32wrap n < 2 ^ 31 := by
  unfold i32wrap
  have h := Int.emod_nonneg (n + 2 ^ 31) (by norm_num : (2 ^ 32 : Int) ≠ 0)
  have h' := Int.emod_lt_of_pos (n + 2 ^ 31) (by norm_num : (0 : Int) < 2 ^ 32)
  omega

/-- Every `EngineOp` preserves the pacing invariant. -/
theorem Engine.inv_applyOp (e : Engine) (h : e.Inv) (op : EngineOp) :
    (e.applyOp op).Inv := by
  obtain ⟨h1, h2, h3⟩ := h
  cases op with
  | nextFrame =>
    refine ⟨h1, h2, ?_⟩
    show (e.frame + 1) % e.lifecycle < e.lifecycle
    exact Nat.mod_lt _ (by omega)
  | reset =>
    refine ⟨h1, h2, ?_⟩
    show 0 < e.lifecycle
    omega
  | changeLifecycle delta =>
    have hmax : (SHORTEST_LIFECYCLE : Int) ≤
        max (i32wrap ((e.lifecycle : Int) + delta)) (SHORTEST_LIFECYCLE : Int) :=
      le_max_right _ _
    have hlow : SHORTEST_LIFECYCLE ≤ (e.change_lifecycle delta).lifecycle := by
      show SHORTEST_LIFECYCLE ≤
        min (max (i32wrap ((e.lifecycle : Int) + delta)) (SHORTEST_LIFECYCLE : Int)).toNat
          LONGEST_LIFECYCLE
      simp only [SHORTEST_LIFECYCLE, LONGEST_LIFECYCLE] at hmax ⊢
      omega
    have hhigh : (e.change_lifecycle delta).lifecycle ≤ LONGEST_LIFECYCLE := by
      show min (max (i32wrap ((e.lifecycle : Int) + delta)) (SHORTEST_LIFECYCLE : Int)).toNat
          LONGEST_LIFECYCLE ≤ LONGEST_LIFECYCLE
      exact Nat.min_le_right _ _
    refine ⟨hlow, hhigh, ?_⟩
    show min e.frame ((e.change_lifecycle delta).lifecycle - 1) <
      (e.change_lifecycle delta).lifecycle
    simp only [SHORTEST_LIFECYCLE] at hlow
    omega
  | startstop =>
    exact ⟨h1, h2, h3⟩
  | trigger event =>
    exact ⟨h1, h2, h3⟩
  | poll =>
    exact ⟨h1, h2, h3⟩

/-- Sequences of `EngineOp`s preserve the pacing invariant. -/
theorem Engine.inv_applyOps (e : Engine) (h : e.Inv) (ops : List EngineOp) :
    (e.applyOps ops).Inv := by
  induction ops generalizing e with
  | nil => exact h
  | cons op rest ih => exact ih (e.applyOp op) (Engine.inv_applyOp e h op)

/-- C2: the spec requires `Universe::new` to reject a zero dimension, but
the code performs no check: `Universe::new(0, 5)` succeeds and returns a
grid with `width = 0`, an empty cell vector, and no well-formedness —
later neighbour arithmetic would take a modulus by zero. -/
theorem C2_new_zero_unchecked :
    (Universe.new 0 5).width = 0 ∧ (Universe.new 0 5).height = 5 ∧
    (Universe.new 0 5).cells = [] ∧ ¬ (Universe.new 0 5).Wellformed := by
  decide

/-- C3: from `Engine::new(n)` and through any sequence of the named
operations, `lifecycle` stays in `[2, 60]` and `frame < lifecycle`;
`Engine::new(1)` clamps to 2 and `Engine::new(1000)` to 60; and
`change_lifecycle` sets the frame to the minimum of the old frame and the
new `lifecycle - 1`, clamping it down exactly when the shrunk range would
exclude it. -/
theorem C3_engine_invariant (n : Nat) (ops : List EngineOp) :
    (SHORTEST_LIFECYCLE ≤ ((Engine.new n).applyOps ops).lifecycle ∧
      ((Engine.new n).applyOps ops).lifecycle ≤ LONGEST_LIFECYCLE ∧
      ((Engine.new n).applyOps ops).frame < ((Engine.new n).applyOps ops).lifecycle) ∧
    (Engine.new 1).lifecycle = 2 ∧
    (Engine.new 1000).lifecycle = 60 ∧
    (∀ (e : Engine) (delta : Int),
      (e.change_lifecycle delta).frame =
        min e.frame ((e.change_lifecycle delta).lifecycle - 1)) := by
  refine ⟨Engine.inv_applyOps _ (Engine.inv_new n) ops, by decide, by decide, ?_⟩
  intro e delta
  rfl

/-- C4: the frame-advance decision of `Engine::step`: a running engine
always moves to `(frame + 1) % lifecycle`; a stopped engine advances the
same way while `frame ≠ lifecycle - 1` and holds once it reaches
`lifecycle - 1`; in particular with lifecycle 4 and frame 2, stopping and
advancing three times yields the frames 3, 3, 3. -/
theorem C4_advance_frame_pacing (e : Engine) :
    (e.is_running = true → (e.advance_frame).frame = (e.frame + 1) % e.lifecycle) ∧
    (e.is_running = false → e.frame ≠ e.lifecycle - 1 →
      (e.advance_frame).frame = (e.frame + 1) % e.lifecycle) ∧
    (e.is_running = false → e.frame = e.lifecycle - 1 →
      (e.advance_frame).frame = e.frame) ∧
    (let e₀ := ({ Engine.new 4 with frame := 2 }).startstop
     let e₁ := e₀.advance_frame
     let e₂ := e₁.advance_frame
     let e₃ := e₂.advance_frame
     e₁.frame = 3 ∧ e₂.frame = 3 ∧ e₃.frame = 3) := by
  refine ⟨?_, ?_, ?_, by decide⟩
  · intro h
    simp [Engine.advance_frame, h, Engine.next_frame]
  · intro h h'
    simp [Engine.advance_frame, Engine.is_last_frame, h, h', Engine.next_frame]
  · intro h h'
    simp [Engine.advance_frame, Engine.is_last_frame, h, h', Engine.next_frame]

/-- C5: the pending-command slot is a single-slot mailbox: `trigger`
overwrites it (last write wins), `poll` returns it and clears it, and
after `trigger(Randomize); trigger(Clear)` the next `poll` yields `Clear`
and the one after that yields nothing. -/
theorem C5_mailbox_last_write_wins (e : Engine) :
    (∀ ev : EngineEvent, (e.trigger ev).event = ev) ∧
    (e.poll).1 = e.event ∧
    ((e.poll).2).event = .None ∧
    (((e.trigger .Randomize).trigger .Clear).poll).1 = .Clear ∧
    (((((e.trigger .Randomize).trigger .Clear).poll).2).poll).1 = .None := by
  exact ⟨fun _ => rfl, rfl, rfl, rfl, rfl⟩

/-- The linear index of in-range coordinates is within the cell vector. -/
theorem Universe.index_lt_length (u : Universe) (hlen : u.cells.length = u.width * u.height)
    (x y : Nat) (hx : x < u.width) (hy : y < u.height) :
    u.index x y < u.cells.length := by
  have h1 : y * u.width + x < (y + 1) * u.width := by
    rw [Nat.succ_mul]
    exact Nat.add_lt_add_left hx _
  have h2 : (y + 1) * u.width ≤ u.height * u.width :=
    Nat.mul_le_mul_right _ hy
  calc u.index x y = y * u.width + x := rfl
    _ < (y + 1) * u.width := h1
    _ ≤ u.height * u.width := h2
    _ = u.width * u.height := Nat.mul_comm _ _
    _ = u.cells.length := hlen.symm

/-- Behaviour of `Universe::toggle` on an in-bounds linear index: it
succeeds, preserves the dimensions and the cell count, rewrites exactly
the addressed cell to its flipped state with `changed = true`, and leaves
every other cell as it was. -/
theorem Universe.toggle_spec (u : Universe) (x y : Nat)
    (hi : u.index x y < u.cells.length) :
    ∃ u', u.toggle x y = some u' ∧
      u'.width = u.width ∧ u'.height = u.height ∧
      u'.cells.length = u.cells.length ∧
      u'.getCell (u.index x y) =
        ⟨Universe.flipState (u.getCell (u.index x y)).state, true⟩ ∧
      ∀ j, j ≠ u.index x y → u'.getCell j = u.getCell j := by
  obtain ⟨c, hc⟩ : ∃ c, u.cells[u.index x y]? = some c :=
    ⟨_, List.getElem?_eq_getElem hi⟩
  have hcell : u.getCell (u.index x y) = c := by
    unfold Universe.getCell
    rw [List.getD_eq_getElem?_getD, hc]
    rfl
  refine ⟨{ u with cells := u.cells.set (u.index x y) ⟨Universe.flipState c.state, true⟩ },
    ?_, rfl, rfl, List.length_set .., ?_, ?_⟩
  · simp only [Universe.toggle, hc]
  · unfold Universe.getCell
    simp only [List.getD_eq_getElem?_getD]
    rw [List.getElem?_set_eq_of_lt _ hi, hc]
    rfl
  · intro j hj
    unfold Universe.getCell
    rw [List.getD_eq_getElem?_getD, List.getD_eq_getElem?_getD,
      List.getElem?_set_ne (fun h => hj h.symm)]

/-- C6 counterexample: on a 2 x 2 grid of dead cells, `toggle(2, 0)` does
not flip the cell at `(2 mod 2, 0 mod 2) = (0, 0)` (linear index 0, still
dead afterwards); it flips the unrelated cell at linear index
`0 * 2 + 2 = 2`, i.e. the cell `(0, 1)` — the coordinates are not wrapped
modulo the dimensions. -/
theorem C6_toggle_no_wrap_counterexample :
    ((Universe.new 2 2).toggle 2 0).map (fun u' => (u'.getCell 0).state) =
      some CellState.Dead ∧
    ((Universe.new 2 2).toggle 2 0).map (fun u' => (u'.getCell 2).state) =
      some CellState.Alive := by
  decide

/-- C6 (amended): `toggle(x, y)` addresses the raw linear index
`y * width + x` with no modulo reduction; for in-range coordinates
`x < width`, `y < height` it flips the alive flag of exactly the cell at
`(x, y)` — which then coincides with `(x mod width, y mod height)` — and
leaves every other cell unchanged, while out-of-range coordinates are not
wrapped (they reach a different cell or fault). -/
theorem C6_toggle_inrange (u : Universe) (h : u.Wellformed) (x y : Nat)
    (hx : x < u.width) (hy : y < u.height) :
    ∃ u', u.toggle x y = some u' ∧
      (u'.getCell (u.index x y)).state =
        Universe.flipState (u.getCell (u.index x y)).state ∧
      (u'.getCell (u.index x y)).changed = true ∧
      u.index x y = u.index (x % u.width) (y % u.height) ∧
      ∀ j, j ≠ u.index x y → u'.getCell j = u.getCell j := by
  obtain ⟨u', ht, _, _, _, hcell, hother⟩ :=
    Universe.toggle_spec u x y (u.index_lt_length h.2.2 x y hx hy)
  refine ⟨u', ht, ?_, ?_, ?_, hother⟩
  · rw [hcell]
  · rw [hcell]
  · rw [Nat.mod_eq_of_lt hx, Nat.mod_eq_of_lt hy]

/-- C6 witness: the amended toggle behaviour at the concrete in-range
input `(1, 0)` on a well-formed 2 x 2 grid. -/
theorem C6_toggle_inrange_witness :
    ((Universe.new 2 2).Wellformed ∧ 1 < (Universe.new 2 2).width ∧
      0 < (Universe.new 2 2).height) ∧
    (∃ u', (Universe.new 2 2).toggle 1 0 = some u' ∧
      (u'.getCell ((Universe.new 2 2).index 1 0)).state =
        Universe.flipState ((Universe.new 2 2).getCell ((Universe.new 2 2).index 1 0)).state ∧
      (u'.getCell ((Universe.new 2 2).index 1 0)).changed = true ∧
      (Universe.new 2 2).index 1 0 =
        (Universe.new 2 2).index (1 % (Universe.new 2 2).width) (0 % (Universe.new 2 2).height) ∧
      ∀ j, j ≠ (Universe.new 2 2).index 1 0 →
        u'.getCell j = (Universe.new 2 2).getCell j) :=
  ⟨⟨by decide, by decide, by decide⟩,
    C6_toggle_inrange (Universe.new 2 2) (by decide) 1 0 (by decide) (by decide)⟩

/-- C9: for in-range coordinates on a well-formed grid, `toggle` flips
the cell's state and reports `changed = true` unconditionally, and a
second `toggle` restores the original state, again with
`changed = true`. -/
theorem C9_toggle_involution (u : Universe) (h : u.Wellformed) (x y : Nat)
    (hx : x < u.width) (hy : y < u.height) :
    ∃ u₁ u₂, u.toggle x y = some u₁ ∧ u₁.toggle x y = some u₂ ∧
      (u₁.getCell (u.index x y)).state =
        Universe.flipState (u.getCell (u.index x y)).state ∧
      (u₁.getCell (u.index x y)).changed = true ∧
      (u₂.getCell (u.index x y)).state = (u.getCell (u.index x y)).state ∧
      (u₂.getCell (u.index x y)).changed = true := by
  obtain ⟨u₁, ht₁, hw₁, hh₁, hl₁, hcell₁, _⟩ :=
    Universe.toggle_spec u x y (u.index_lt_length h.2.2 x y hx hy)
  have hidx : u₁.index x y = u.index x y := by
    unfold Universe.index
    rw [hw₁]
  have hi₁ : u₁.index x y < u₁.cells.length := by
    rw [hidx, hl₁]
    exact u.index_lt_length h.2.2 x y hx hy
  obtain ⟨u₂, ht₂, _, _, _, hcell₂, _⟩ := Universe.toggle_spec u₁ x y hi₁
  rw [hidx] at hcell₂
  refine ⟨u₁, u₂, ht₁, ht₂, ?_, ?_, ?_, ?_⟩
  · rw [hcell₁]
  · rw [hcell₁]
  · rw [hcell₂, hcell₁]
    cases (u.getCell (u.index x y)).state <;> rfl
  · rw [hcell₂]

/-- C9 witness: the toggle involution at the concrete input `(0, 1)` on a
well-formed 2 x 3 grid. -/
theorem C9_toggle_involution_witness :
    ((Universe.new 2 3).Wellformed ∧ 0 < (Universe.new 2 3).width ∧
      1 < (Universe.new 2 3).height) ∧
    (∃ u₁ u₂, (Universe.new 2 3).toggle 0 1 = some u₁ ∧ u₁.toggle 0 1 = some u₂ ∧
      (u₁.getCell ((Universe.new 2 3).index 0 1)).state =
        Universe.flipState ((Universe.new 2 3).getCell ((Universe.new 2 3).index 0 1)).state ∧
      (u₁.getCell ((Universe.new 2 3).index 0 1)).changed = true ∧
      (u₂.getCell ((Universe.new 2 3).index 0 1)).state =
        ((Universe.new 2 3).getCell ((Universe.new 2 3).index 0 1)).state ∧
      (u₂.getCell ((Universe.new 2 3).index 0 1)).changed = true) :=
  ⟨⟨by decide, by decide, by decide⟩,
    C9_toggle_involution (Universe.new 2 3) (by decide) 0 1 (by decide) (by decide)⟩

/-- C7: the screen-to-cell picking returns a cell exactly when the
computed grid coordinates lie in `[0, width) x [0, height)`; otherwise it
returns `none` (a miss, not an error), and a returned cell is always a
valid index pair into the grid. -/
theorem C7_mouse_projection_bounds (x y : ℚ) (w h : Nat) :
    (∀ gx gy, mouse_projection_select x y w h = some (gx, gy) →
      gx < w ∧ gy < h ∧ gx = ⌊x⌋.toNat ∧ gy = ⌊y⌋.toNat) ∧
    (mouse_projection_select x y w h = none ↔
      ¬ (0 ≤ x ∧ 0 ≤ y ∧ x < (w : ℚ) ∧ y < (h : ℚ))) := by
  refine ⟨?_, ?_⟩
  · intro gx gy heq
    unfold mouse_projection_select at heq
    by_cases hcond : 0 ≤ x ∧ 0 ≤ y ∧ x < (w : ℚ) ∧ y < (h : ℚ)
    · rw [if_pos hcond] at heq
      obtain ⟨hx0, hy0, hxw, hyh⟩ := hcond
      have h1 : ⌊x⌋ < (w : ℤ) := Int.floor_lt.mpr (by exact_mod_cast hxw)
      have h2 : ⌊y⌋ < (h : ℤ) := Int.floor_lt.mpr (by exact_mod_cast hyh)
      have h3 : 0 ≤ ⌊x⌋ := Int.floor_nonneg.mpr hx0
      have h4 : 0 ≤ ⌊y⌋ := Int.floor_nonneg.mpr hy0
      simp only [Option.some.injEq, Prod.mk.injEq] at heq
      obtain ⟨hgx, hgy⟩ := heq
      refine ⟨?_, ?_, hgx.symm, hgy.symm⟩ <;> omega
    · rw [if_neg hcond] at heq
      cases heq
  · unfold mouse_projection_select
    by_cases hcond : 0 ≤ x ∧ 0 ≤ y ∧ x < (w : ℚ) ∧ y < (h : ℚ)
    · rw [if_pos hcond]
      simp [hcond]
    · rw [if_neg hcond]
      simp [hcond]

/-- `Engine::draw` (`drawAt`) only updates the draw memory; the other
fields are untouched. -/
theorem Engine.drawAt_fields (e : Engine) (cx cy : Int) :
    (e.drawAt cx cy).event = e.event ∧ (e.drawAt cx cy).frame = e.frame ∧
    (e.drawAt cx cy).lifecycle = e.lifecycle ∧ (e.drawAt cx cy).state = e.state :=
  ⟨rfl, rfl, rfl, rfl⟩

/-- The drawing phase of `Engine::step` can only toggle a universe cell
and update the draw memory: the engine's event slot, frame, lifecycle and
run state come through unchanged. -/
theorem Engine.drawPhase_preserves (e : Engine) (u : Universe)
    (proj : Option (Nat × Nat)) :
    ∀ p, e.drawPhase u proj = some p →
      p.1.event = e.event ∧ p.1.frame = e.frame ∧
      p.1.lifecycle = e.lifecycle ∧ p.1.state = e.state := by
  intro p hp
  unfold Engine.drawPhase at hp
  split at hp
  · split at hp
    · split at hp
      · cases hp
        exact ⟨rfl, rfl, rfl, rfl⟩
      · obtain ⟨u', htog, hval⟩ := Option.map_eq_some'.mp hp
        subst hval
        exact ⟨(Engine.drawAt_fields _ _ _).1, (Engine.drawAt_fields _ _ _).2.1,
          (Engine.drawAt_fields _ _ _).2.2.1, (Engine.drawAt_fields _ _ _).2.2.2⟩
    · cases hp
      exact ⟨rfl, rfl, rfl, rfl⟩
  · cases hp
    exact ⟨rfl, rfl, rfl, rfl⟩

/-- C8: whenever an `Engine::step` call polls a pending Randomize or
Clear, the universe operation is applied and the frame is reset to 0
before the frame-advance decision; since `lifecycle ≥ 2` the call then
advances the frame to 1, so the generation step `universe.step()` does
not also run in that call, and the resulting universe is exactly the
randomized/cleared one. -/
theorem C8_command_before_advance (e : Engine) (u : Universe)
    (proj : Option (Nat × Nat)) (bits : Nat → Bool)
    (hl : SHORTEST_LIFECYCLE ≤ e.lifecycle)
    (hev : e.event = .Randomize ∨ e.event = .Clear) :
    ∀ r, e.step u proj bits = some r →
      ∃ e₁ u₁, e.drawPhase u proj = some (e₁, u₁) ∧
        r.2.2 = false ∧
        r.1.frame = 1 ∧
        r.2.1 = (match e.event with
                 | .Randomize => u₁.rand bits
                 | .Clear => u₁.clear
                 | .None => u₁) := by
  intro r hr
  unfold Engine.step at hr
  cases hdp : e.drawPhase u proj with
  | none =>
    rw [hdp] at hr
    cases hr
  | some p =>
    obtain ⟨e₁, u₁⟩ := p
    obtain ⟨hev', hfr, hlc, hst⟩ := Engine.drawPhase_preserves e u proj _ hdp
    simp only at hev' hfr hlc hst
    rw [hdp, Option.map_some', Option.some.injEq] at hr
    subst hr
    refine ⟨e₁, u₁, rfl, ?_⟩
    obtain ⟨st, dr, ev, ms, fr, lc⟩ := e₁
    simp only at hev' hlc
    have hlc2 : 2 ≤ lc := by
      rw [hlc]
      exact hl
    have hlast : ({ state := st, draw := dr, event := EngineEvent.None, mouse := ms,
                    frame := 0, lifecycle := lc } : Engine).is_last_frame = false := by
      simp only [Engine.is_last_frame, decide_eq_false_iff_not]
      omega
    have hadv : ({ state := st, draw := dr, event := EngineEvent.None, mouse := ms,
                   frame := 0, lifecycle := lc } : Engine).advance_frame.frame = 1 := by
      unfold Engine.advance_frame
      rw [hlast]
      simp only [Bool.not_false, Bool.or_true, if_true]
      show (0 + 1) % lc = 1
      exact Nat.mod_eq_of_lt (by omega)
    rcases hev with h | h <;>
      · have h2 : ev = _ := hev'.trans h
        subst h2
        rw [h]
        simp [Engine.poll, Engine.reset, Engine.is_first_frame, hadv]

/-- C8 witness: a concrete step call with a pending Clear on a running
2-frame engine over a well-formed 1 x 1 grid, with no drawing active. -/
theorem C8_command_before_advance_witness :
    (SHORTEST_LIFECYCLE ≤ ((Engine.new 2).trigger .Clear).lifecycle ∧
      (((Engine.new 2).trigger .Clear).event = .Randomize ∨
        ((Engine.new 2).trigger .Clear).event = .Clear)) ∧
    (∀ r, ((Engine.new 2).trigger .Clear).step (Universe.new 1 1) none (fun _ => false) =
        some r →
      ∃ e₁ u₁, ((Engine.new 2).trigger .Clear).drawPhase (Universe.new 1 1) none =
          some (e₁, u₁) ∧
        r.2.2 = false ∧
        r.1.frame = 1 ∧
        r.2.1 = (match ((Engine.new 2).trigger .Clear).event with
                 | .Randomize => u₁.rand (fun _ => false)
                 | .Clear => u₁.clear
                 | .None => u₁)) :=
  ⟨⟨by decide, Or.inr (by decide)⟩,
    C8_command_before_advance ((Engine.new 2).trigger .Clear) (Universe.new 1 1) none
      (fun _ => false) (by decide) (Or.inr (by decide))⟩

/-- Folding a list of writes `acc.set i (f i)` preserves the length. -/
theorem foldl_set_length {α : Type} (f : Nat → α) (idxs : List Nat) (l : List α) :
    (idxs.foldl (fun acc i => acc.set i (f i)) l).length = l.length := by
  induction idxs generalizing l with
  | nil => rfl
  | cons i rest ih =>
    rw [List.foldl_cons, ih]
    exact List.length_set ..

/-- Reading after a fold of writes `acc.set i (f i)`: position `j` holds
`f j` when `j` is one of the written in-range indices, and the original
entry otherwise. -/
theorem foldl_set_getElem? {α : Type} (f : Nat → α) (idxs : List Nat) (l : List α) (j : Nat) :
    (idxs.foldl (fun acc i => acc.set i (f i)) l)[j]? =
      if j ∈ idxs ∧ j < l.length then some (f j) else l[j]? := by
  induction idxs generalizing l with
  | nil =>
    simp
  | cons i rest ih =>
    have hlen : (l.set i (f i)).length = l.length := List.length_set ..
    rw [List.foldl_cons, ih, hlen]
    by_cases hjr : j ∈ rest ∧ j < l.length
    · rw [if_pos hjr, if_pos ⟨List.mem_cons_of_mem _ hjr.1, hjr.2⟩]
    · rw [if_neg hjr]
      by_cases hij : j = i
      · subst hij
        by_cases hjl : j < l.length
        · rw [List.getElem?_set_eq_of_lt _ hjl, if_pos ⟨List.mem_cons_self _ _, hjl⟩]
        · have h1 : (l.set j (f j))[j]? = none :=
            List.getElem?_eq_none_iff.mpr (by rw [hlen]; omega)
          have h2 : l[j]? = none := List.getElem?_eq_none_iff.mpr (by omega)
          rw [h1, if_neg (fun hc => hjl hc.2), h2]
      · rw [List.getElem?_set_ne (fun hh => hij hh.symm)]
        refine (if_neg (fun hc => ?_)).symm ▸ rfl
        rcases List.mem_cons.mp hc.1 with hh | hh
        · exact hij hh
        · exact hjr ⟨hh, hc.2⟩

/-- A fold is determined by the function's values on the list members. -/
theorem foldl_ext_mem {α β : Type} (f g : β → α → β) (l : List α)
    (H : ∀ x ∈ l, ∀ acc, f acc x = g acc x) (init : β) :
    l.foldl f init = l.foldl g init := by
  induction l generalizing init with
  | nil => rfl
  | cons a l ih =>
    rw [List.foldl_cons, List.foldl_cons, H a (List.mem_cons_self a l) init]
    exact ih (fun x hx acc => H x (List.mem_cons_of_mem _ hx) acc) _

/-- Recovering scan coordinates from the linear index. -/
theorem Universe.index_mod_div (u : Universe) (x y : Nat) (hx : x < u.width) :
    u.index x y % u.width = x ∧ u.index x y / u.width = y := by
  constructor
  · show (y * u.width + x) % u.width = x
    rw [Nat.mul_comm y u.width, Nat.mul_add_mod]
    exact Nat.mod_eq_of_lt hx
  · show (y * u.width + x) / u.width = y
    rw [Nat.mul_comm y u.width, Nat.mul_add_div (by omega), Nat.div_eq_of_lt hx]
    omega

/-- `Universe.nextCellAt` agrees with `nextCell` on scan indices. -/
theorem Universe.nextCellAt_index (u : Universe) (x y : Nat) (hx : x < u.width) :
    u.nextCellAt (u.index x y) = u.nextCell x y := by
  obtain ⟨hmod, hdiv⟩ := u.index_mod_div x y hx
  unfold Universe.nextCellAt
  rw [hmod, hdiv]

/-- The nested scan of `Universe::step` is one fold of per-index writes
over the scan order. -/
theorem Universe.step_cells (u : Universe) :
    (u.step).cells =
      (Universe.scanIndices u.width u.height).foldl
        (fun acc i => acc.set i (u.nextCellAt i)) u.cells := by
  show (List.range u.height).foldl
      (fun acc y => (List.range u.width).foldl
        (fun acc x => acc.set (u.index x y) (u.nextCell x y)) acc) u.cells = _
  have hinner : ∀ (y : Nat) (acc : List Cell),
      (List.range u.width).foldl
        (fun acc x => acc.set (u.index x y) (u.nextCell x y)) acc =
      ((List.range u.width).map (fun x => y * u.width + x)).foldl
        (fun acc i => acc.set i (u.nextCellAt i)) acc := by
    intro y acc
    rw [List.foldl_map]
    refine foldl_ext_mem _ _ _ (fun x hx acc₂ => ?_) acc
    have hxw : x < u.width := List.mem_range.mp hx
    show acc₂.set (u.index x y) (u.nextCell x y) =
      acc₂.set (u.index x y) (u.nextCellAt (u.index x y))
    rw [u.nextCellAt_index x y hxw]
  rw [funext fun acc => funext fun y => hinner y acc]
  rw [show Universe.scanIndices u.width u.height =
      ((List.range u.height).map (fun y => (List.range u.width).map
        (fun x => y * u.width + x))).flatten from rfl]
  rw [List.foldl_flatten, List.foldl_map]

/-- Every in-range linear index is visited by the scan. -/
theorem Universe.mem_scanIndices (w h x y : Nat) (hx : x < w) (hy : y < h) :
    y * w + x ∈ Universe.scanIndices w h := by
  unfold Universe.scanIndices
  rw [List.mem_flatten]
  refine ⟨(List.range w).map (fun x => y * w + x), ?_, ?_⟩
  · exact List.mem_map_of_mem _ (List.mem_range.mpr hy)
  · exact List.mem_map_of_mem _ (List.mem_range.mpr hx)

/-- The cell `Universe::step` leaves at in-range coordinates `(x, y)` is
exactly `nextCell x y`, computed from the pre-step grid alone. -/
theorem Universe.step_getCell (u : Universe) (hlen : u.cells.length = u.width * u.height)
    (x y : Nat) (hx : x < u.width) (hy : y < u.height) :
    (u.step).getCell (u.index x y) = u.nextCell x y := by
  have hi : u.index x y < u.cells.length := u.index_lt_length hlen x y hx hy
  have hmem : u.index x y ∈ Universe.scanIndices u.width u.height :=
    Universe.mem_scanIndices _ _ _ _ hx hy
  unfold Universe.getCell
  rw [List.getD_eq_getElem?_getD, Universe.step_cells, foldl_set_getElem?,
    if_pos ⟨hmem, hi⟩, Option.getD_some]
  exact u.nextCellAt_index x y hx

/-- `Universe::step` preserves the cell count. -/
theorem Universe.step_length (u : Universe) :
    (u.step).cells.length = u.cells.length := by
  rw [Universe.step_cells]
  exact foldl_set_length ..

/-- The `u8` discriminant of a cell state as an indicator. -/
theorem CellState.toNat_eq_ite (s : CellState) :
    s.toNat = if s = .Alive then 1 else 0 := by
  cases s <;> rfl

/-- Counting a guarded indicator fold over one offset row equals the
filtered count over the row's offset pairs. -/
theorem neigh_inner (P : Nat → Nat → Prop) [∀ a b, Decidable (P a b)]
    (nx : Nat) (nys : List Nat) :
    ∀ c : Nat,
      nys.foldl (fun c2 ny => if nx = 0 ∧ ny = 0 then c2
        else c2 + (if P nx ny then 1 else 0)) c
      = c + (((nys.map (fun ny => (nx, ny))).filter
          (fun p => decide (¬ (p.1 = 0 ∧ p.2 = 0)))).countP
            (fun p => decide (P p.1 p.2))) := by
  induction nys with
  | nil =>
    intro c
    simp
  | cons ny rest ih =>
    intro c
    rw [List.map_cons, List.filter_cons, List.foldl_cons]
    by_cases hskip : nx = 0 ∧ ny = 0
    · rw [if_pos hskip]
      have hd : decide (¬ ((nx, ny).1 = 0 ∧ (nx, ny).2 = 0)) = false := by simp [hskip]
      rw [hd]
      simp only [Bool.false_eq_true, if_false]
      exact ih c
    · rw [if_neg hskip]
      have hd : decide (¬ ((nx, ny).1 = 0 ∧ (nx, ny).2 = 0)) = true := by simp [hskip]
      rw [hd]
      simp only [if_true]
      rw [List.countP_cons, ih]
      by_cases hp : P nx ny <;> simp [hp] <;> omega

/-- The nested guarded indicator fold over both offset rows equals the
filtered count over all offset pairs. -/
theorem neigh_outer (P : Nat → Nat → Prop) [∀ a b, Decidable (P a b)]
    (nys : List Nat) (nxs : List Nat) :
    ∀ c : Nat,
      nxs.foldl (fun c1 nx => nys.foldl (fun c2 ny => if nx = 0 ∧ ny = 0 then c2
        else c2 + (if P nx ny then 1 else 0)) c1) c
      = c + (((nxs.flatMap (fun nx => nys.map (fun ny => (nx, ny)))).filter
          (fun p => decide (¬ (p.1 = 0 ∧ p.2 = 0)))).countP
            (fun p => decide (P p.1 p.2))) := by
  induction nxs with
  | nil =>
    intro c
    simp
  | cons nx rest ih =>
    intro c
    rw [List.foldl_cons, List.flatMap_cons, List.filter_append, List.countP_append,
      neigh_inner P nx nys c, ih]
    omega

/-- The code's neighbour count coincides with the specification's
filtered-offsets count. -/
theorem Universe.neighbours_eq_spec (u : Universe) (x y : Nat) :
    u.neighbours x y = u.specNeighbourCount x y := by
  have hP := neigh_outer
    (fun nx ny =>
      (u.getCell (u.index ((x + nx) % u.width) ((y + ny) % u.height))).state = CellState.Alive)
    [u.height - 1, 0, 1] [u.width - 1, 0, 1] 0
  rw [List.countP_eq_length_filter] at hP
  simp only [Nat.zero_add] at hP
  unfold Universe.neighbours Universe.specNeighbourCount
  simp only [CellState.toNat_eq_ite]
  exact hP

/-- The survival half of the step rule: an alive cell stays alive exactly
on 2 or 3 neighbours. -/
theorem lifeRule_alive_iff (n : Nat) :
    (Universe.lifeRule .Alive n = .Alive) ↔ (n = 2 ∨ n = 3) := by
  unfold Universe.lifeRule
  split_ifs <;> simp_all <;> omega

/-- The birth half of the step rule: a dead cell comes alive exactly on 3
neighbours. -/
theorem lifeRule_dead_iff (n : Nat) :
    (Universe.lifeRule .Dead n = .Alive) ↔ n = 3 := by
  unfold Universe.lifeRule
  split_ifs <;> simp_all

/-- C1: `Universe::step` replaces every in-range cell with the standard
rule applied to the pre-step state: with `n` the count of alive cells
among the 8 toroidal neighbour offsets (the spec's own wording, as
`specNeighbourCount`), an alive cell stays alive iff `n` is 2 or 3, a
dead cell becomes alive iff `n` is exactly 3, the new `changed` flag
equals (new state ≠ old state), the cell count is preserved, and the new
cell is a function of the pre-step grid alone (no already-updated cell is
read). -/
theorem C1_step_life_rule (u : Universe) (h : u.Wellformed) (x y : Nat)
    (hx : x < u.width) (hy : y < u.height) :
    (((u.getCell (u.index x y)).state = .Alive →
      ((((u.step).getCell (u.index x y)).state = .Alive) ↔
        (u.specNeighbourCount x y = 2 ∨ u.specNeighbourCount x y = 3)))) ∧
    (((u.getCell (u.index x y)).state = .Dead →
      ((((u.step).getCell (u.index x y)).state = .Alive) ↔
        u.specNeighbourCount x y = 3))) ∧
    ((u.step).getCell (u.index x y)).changed =
      decide (((u.step).getCell (u.index x y)).state ≠ (u.getCell (u.index x y)).state) ∧
    (u.step).cells.length = u.cells.length ∧
    (u.step).getCell (u.index x y) =
      ⟨Universe.lifeRule (u.getCell (u.index x y)).state (u.specNeighbourCount x y),
        decide ((u.getCell (u.index x y)).state ≠
          Universe.lifeRule (u.getCell (u.index x y)).state (u.specNeighbourCount x y))⟩ := by
  have hstep := u.step_getCell h.2.2 x y hx hy
  have hnext : u.nextCell x y =
      ⟨Universe.lifeRule (u.getCell (u.index x y)).state (u.specNeighbourCount x y),
        decide ((u.getCell (u.index x y)).state ≠
          Universe.lifeRule (u.getCell (u.index x y)).state (u.specNeighbourCount x y))⟩ := by
    rw [show u.nextCell x y =
        ⟨Universe.lifeRule (u.getCell (u.index x y)).state (u.neighbours x y),
          decide ((u.getCell (u.index x y)).state ≠
            Universe.lifeRule (u.getCell (u.index x y)).state (u.neighbours x y))⟩ from rfl,
      u.neighbours_eq_spec x y]
  rw [hstep, hnext]
  refine ⟨?_, ?_, ?_, u.step_length, rfl⟩
  · intro halive
    rw [halive]
    exact lifeRule_alive_iff (u.specNeighbourCount x y)
  · intro hdead
    rw [hdead]
    exact lifeRule_dead_iff (u.specNeighbourCount x y)
  · exact decide_eq_decide.mpr ne_comm

/-- C1 witness: the step rule evaluated at the centre cell of a
well-formed 3 x 3 grid of dead cells. -/
theorem C1_step_life_rule_witness :
    ((Universe.new 3 3).Wellformed ∧ 1 < (Universe.new 3 3).width ∧
      1 < (Universe.new 3 3).height) ∧
    ((((Universe.new 3 3).getCell ((Universe.new 3 3).index 1 1)).state = .Alive →
      (((((Universe.new 3 3).step).getCell ((Universe.new 3 3).index 1 1)).state = .Alive) ↔
        ((Universe.new 3 3).specNeighbourCount 1 1 = 2 ∨
          (Universe.new 3 3).specNeighbourCount 1 1 = 3))) ∧
    (((Universe.new 3 3).getCell ((Universe.new 3 3).index 1 1)).state = .Dead →
      (((((Universe.new 3 3).step).getCell ((Universe.new 3 3).index 1 1)).state = .Alive) ↔
        (Universe.new 3 3).specNeighbourCount 1 1 = 3)) ∧
    (((Universe.new 3 3).step).getCell ((Universe.new 3 3).index 1 1)).changed =
      decide ((((Universe.new 3 3).step).getCell ((Universe.new 3 3).index 1 1)).state ≠
        ((Universe.new 3 3).getCell ((Universe.new 3 3).index 1 1)).state) ∧
    ((Universe.new 3 3).step).cells.length = (Universe.new 3 3).cells.length ∧
    ((Universe.new 3 3).step).getCell ((Universe.new 3 3).index 1 1) =
      ⟨Universe.lifeRule ((Universe.new 3 3).getCell ((Universe.new 3 3).index 1 1)).state
          ((Universe.new 3 3).specNeighbourCount 1 1),
        decide (((Universe.new 3 3).getCell ((Universe.new 3 3).index 1 1)).state ≠
          Universe.lifeRule ((Universe.new 3 3).getCell ((Universe.new 3 3).index 1 1)).state
            ((Universe.new 3 3).specNeighbourCount 1 1))⟩) :=
  ⟨⟨by decide, by decide, by decide⟩,
    C1_step_life_rule (Universe.new 3 3) (by decide) 1 1 (by decide) (by decide)⟩

/-- C10: `Engine::new(n)` starts running, at frame 0, with an empty
command slot (the first poll yields nothing) and with painting
inactive. -/
theorem C10_new_initial_state (n : Nat) :
    (Engine.new n).is_running = true ∧
    (Engine.new n).frame = 0 ∧
    ((Engine.new n).poll).1 = .None ∧
    (Engine.new n).is_drawing = false := by
  exact ⟨rfl, rfl, rfl, rfl⟩

end Life3d
